import Mathlib

/-!
# Product service (`src/index.js`): GraphQL resolvers and REST handlers over `productsDb`

A shallow embedding of `src/index.js`.  The module-level array `productsDb` is the only
state; every handler is a function from the array before the request to the array after
it and the value handed to the client.

Conventions of the embedding
* `productsDb.push(x)` is `db ++ [x]`, `productsDb.length` is `List.length`,
  `productsDb.find(f)` is `List.find?` (`undefined` is `none`).
* A JavaScript number that the program only stores and hands back (price, tax, any number
  inside a request body) is the rational it denotes; the program never computes with it.
  A product `id` is always an integer (`length + 1`, or the literals 1 and 2) and is an
  `Int`.  The result of `parseInt` is `Option Int`, `none` being `NaN`; the value is the
  exact integer, which is what JavaScript yields below `2 ^ 53`.  Lists and integers are
  unbounded here; a JavaScript array holds fewer than `2 ^ 32` elements, so every id the
  process can assign lies in the range where the two agree.
* GraphQL operations are taken at the resolver call, REST requests at the Express route
  table after `bodyParser.json()` has produced `req.body`.
-/

namespace ProductService

/-! ## Values -/

/-- A JavaScript value as the handlers see it: `undefined`, or what `JSON.parse` or the
GraphQL argument coercion can deliver. -/
inductive JSValue where
  | undefined : JSValue
  | null : JSValue
  | bool (b : Bool) : JSValue
  | num (q : ℚ) : JSValue
  | str (s : String) : JSValue
  | arr (items : List JSValue) : JSValue
  | obj (props : List (String × JSValue)) : JSValue

/-- The test `v == null` of JavaScript: true of `undefined` and `null` only.  The GraphQL
executor sends `null` for a nullable field (`description: String`, `tax: Float`) whose
resolved value passes this test. -/
def JSValue.isNullish : JSValue → Bool
  | .undefined => true
  | .null => true
  | _ => false

/-- The value a GraphQL client reads in a nullable field: `null` when the resolved value
is `undefined` or `null`, the value itself otherwise (for a value of the declared scalar
type; the serialiser's coercion of other types is not part of this development). -/
def completeNullable (v : JSValue) : JSValue :=
  if v.isNullish then .null else v

/-- The objects of `productsDb`: `{ id, name, description, price, tax }`. -/
structure Product where
  id : Int
  name : JSValue
  description : JSValue
  price : JSValue
  tax : JSValue

/-- `let productsDb = [...]` (lines 8-11): the array at process start. -/
def productsDb : List Product :=
  [ { id := 1, name := .str "T-shirt", description := .str "Cotton T-shirt",
      price := .num 20.5, tax := .num 2.0 },
    { id := 2, name := .str "Shoes", description := .str "Sport shoes",
      price := .num 50.0, tax := .num 5.0 } ]

/-! ## GraphQL resolvers (lines 33-45) -/

/-- `getProducts: () => productsDb`. -/
def getProducts (db : List Product) : List Product := db

/-- `getProductById: (_, { id }) => productsDb.find((product) => product.id === id)`. -/
def getProductById (db : List Product) (id : Int) : Option Product :=
  db.find? (fun product => product.id == id)

/-- `createProduct` (lines 39-43): the array after the push, and the returned object. -/
def createProduct (db : List Product) (name description price tax : JSValue) :
    List Product × Product :=
  let newProduct : Product :=
    { id := (db.length : Int) + 1, name := name, description := description,
      price := price, tax := tax }
  (db ++ [newProduct], newProduct)

/-! ## `parseInt` -/

/-- The characters `parseInt` skips at the start of its argument (ECMAScript
`StrWhiteSpaceChar`: white space and line terminators). -/
def isStrWhiteSpaceChar (c : Char) : Bool :=
  c.toNat ∈ [0x9, 0xA, 0xB, 0xC, 0xD, 0x20, 0xA0, 0x1680, 0x2000, 0x2001, 0x2002, 0x2003,
    0x2004, 0x2005, 0x2006, 0x2007, 0x2008, 0x2009, 0x200A, 0x2028, 0x2029, 0x202F,
    0x205F, 0x3000, 0xFEFF]

/-- The value of a character as a digit: `0-9`, then letters of either case from 10. -/
def digitValue (c : Char) : Option Nat :=
  if '0' ≤ c ∧ c ≤ '9' then some (c.toNat - 48)
  else if 'a' ≤ c ∧ c ≤ 'z' then some (c.toNat - 87)
  else if 'A' ≤ c ∧ c ≤ 'Z' then some (c.toNat - 55)
  else none

/-- The longest prefix made of digits of radix `R`, as digit values. -/
def takeDigits (R : Nat) : List Char → List Nat
  | [] => []
  | c :: cs =>
    match digitValue c with
    | some d => if d < R then d :: takeDigits R cs else []
    | none => []

/-- `parseInt(string)` with no radix argument: skip leading white space, read a sign,
read a `0x`/`0X` prefix (radix 16, else radix 10), read the longest run of digits;
`NaN` (`none`) when that run is empty. -/
def parseInt (string : String) : Option Int :=
  let S := string.toList.dropWhile isStrWhiteSpaceChar
  let sign : Int :=
    match S with
    | '-' :: _ => -1
    | _ => 1
  let S :=
    match S with
    | '-' :: rest => rest
    | '+' :: rest => rest
    | rest => rest
  let SR : List Char × Nat :=
    match S with
    | '0' :: 'x' :: rest => (rest, 16)
    | '0' :: 'X' :: rest => (rest, 16)
    | rest => (rest, 10)
  let Z := takeDigits SR.2 SR.1
  if Z.isEmpty then none
  else some (sign * ((Z.foldl (fun acc d => acc * SR.2 + d) 0 : Nat) : Int))

/-- `x === y` for an integer `x` and a result of `parseInt`: `NaN` equals nothing. -/
def strictEquals (x : Int) (y : Option Int) : Bool :=
  match y with
  | none => false
  | some n => x == n

/-! ## REST handlers (lines 58-73) -/

/-- `req.body` as `bodyParser.json()` leaves it: a parsed JSON object (the empty object
when the request carries no JSON) or a parsed JSON array. -/
inductive Body where
  | object (props : List (String × JSValue)) : Body
  | array (items : List JSValue) : Body

/-- The property read done by `const { name, description, price, tax } = req.body`:
the value bound to the key, `undefined` when the object has no such key.  An array has
none of the four keys read. -/
def Body.get (body : Body) (key : String) : JSValue :=
  match body with
  | .object props =>
    match props.lookup key with
    | some v => v
    | none => .undefined
  | .array _ => .undefined

/-- The argument of `res.json(...)`. -/
inductive Payload where
  | products (list : List Product) : Payload
  | product (p : Product) : Payload
  | message (text : String) : Payload

/-- What a REST request is answered with. -/
inductive Response where
  | json (status : Nat) (payload : Payload) : Response
  | notRouted : Response
  | apiDocs : Response

/-- The HTTP status of a response, where the program or Express fixes it: the status set
by the handler, 404 for a request no route takes. -/
def Response.status : Response → Option Nat
  | .json status _ => some status
  | .notRouted => some 404
  | .apiDocs => none

/-- `app.get("/rest/products", ...)` (lines 58-60). -/
def restGetProducts (db : List Product) : Response :=
  .json 200 (.products db)

/-- `app.get("/rest/products/:id", ...)` (lines 62-66); `id` is `req.params.id`. -/
def restGetProductById (db : List Product) (id : String) : Response :=
  match db.find? (fun p => strictEquals p.id (parseInt id)) with
  | none => .json 404 (.message "Product not found")
  | some product => .json 200 (.product product)

/-- `app.post("/rest/products", ...)` (lines 68-73). -/
def restPostProducts (db : List Product) (body : Body) : List Product × Response :=
  let name := body.get "name"
  let description := body.get "description"
  let price := body.get "price"
  let tax := body.get "tax"
  let newProduct : Product :=
    { id := (db.length : Int) + 1, name := name, description := description,
      price := price, tax := tax }
  (db ++ [newProduct], .json 201 (.product newProduct))

/-! ## The Express route table (lines 54-73 and 152) -/

/-- The request methods of the model.  `HEAD` and `OPTIONS`, which Express answers on
its own, are left out. -/
inductive Method where
  | GET : Method
  | POST : Method
  | PUT : Method
  | PATCH : Method
  | DELETE : Method
  deriving DecidableEq

/-- The pieces of a path between its `/` characters: `/a/b` is `["", "a", "b"]` and
`/a/b/` is `["", "a", "b", ""]`. -/
def splitPath : List Char → List (List Char)
  | [] => [[]]
  | c :: cs =>
    if c = '/' then [] :: splitPath cs
    else
      match splitPath cs with
      | [] => [[c]]
      | seg :: rest => (c :: seg) :: rest

/-- A path segment against a literal segment of a route; Express compares without regard
to the case of ASCII letters. -/
def segmentIs (seg : List Char) (literal : String) : Bool :=
  seg.map Char.toLower == literal.toList

/-- The path pattern `"/rest/products"`: the two segments, with or without one trailing
slash. -/
def matchProducts (path : String) : Bool :=
  match splitPath path.toList with
  | [[], a, b] => segmentIs a "rest" && segmentIs b "products"
  | [[], a, b, []] => segmentIs a "rest" && segmentIs b "products"
  | _ => false

/-- The path pattern `"/rest/products/:id"`: a third, non-empty segment, handed over as
`req.params.id`, with or without one trailing slash.  Percent-decoding of the segment is
not modelled: the path is taken already decoded. -/
def matchProductById (path : String) : Option String :=
  match splitPath path.toList with
  | [[], a, b, id] =>
    if segmentIs a "rest" && segmentIs b "products" && !id.isEmpty then some (String.mk id)
    else none
  | [[], a, b, id, []] =>
    if segmentIs a "rest" && segmentIs b "products" && !id.isEmpty then some (String.mk id)
    else none
  | _ => none

/-- The mount path of `app.use("/api-docs", ...)`: every path under `/api-docs`. -/
def matchApiDocs (path : String) : Bool :=
  match splitPath path.toList with
  | [] :: a :: _ => segmentIs a "api-docs"
  | _ => false

/-- The Express application `app`: the registrations in their order in the file, the
first that takes the request answers it, and a request none takes gets Express's own 404.
`path` is the path of the request URL without its query string. -/
def app (db : List Product) (method : Method) (path : String) (body : Body) :
    List Product × Response :=
  if method = .GET ∧ matchProducts path = true then (db, restGetProducts db)
  else
    match (if method = .GET then matchProductById path else none) with
    | some id => (db, restGetProductById db id)
    | none =>
      if method = .POST ∧ matchProducts path = true then restPostProducts db body
      else if matchApiDocs path = true then (db, .apiDocs)
      else (db, .notRouted)

/-! ## Requests of either API, one after another -/

/-- A request to the process: a call of one of the three GraphQL resolvers, or an HTTP
request to the REST listener. -/
inductive Request where
  | getProducts : Request
  | getProductById (id : Int) : Request
  | createProduct (name description price tax : JSValue) : Request
  | rest (method : Method) (path : String) (body : Body) : Request

/-- What a request is answered with. -/
inductive Reply where
  | products (list : List Product) : Reply
  | product (found : Option Product) : Reply
  | created (p : Product) : Reply
  | rest (response : Response) : Reply

/-- One request processed to completion: the array afterwards and the answer. -/
def step (db : List Product) : Request → List Product × Reply
  | .getProducts => (db, .products (getProducts db))
  | .getProductById id => (db, .product (getProductById db id))
  | .createProduct name description price tax =>
    let r := createProduct db name description price tax
    (r.1, .created r.2)
  | .rest method path body =>
    let r := app db method path body
    (r.1, .rest r.2)

/-- The array after a sequence of requests. -/
def run (db : List Product) (requests : List Request) : List Product :=
  requests.foldl (fun d r => (step d r).1) db

/-- The create requests: the `createProduct` mutation and a `POST` that the route table
hands to the create handler. -/
def Request.isCreate : Request → Bool
  | .createProduct _ _ _ _ => true
  | .rest method path _ => decide (method = .POST) && matchProducts path
  | _ => false

/-- The text JavaScript gives an integer (below `10 ^ 21` in size) when it is put into a
URL or a string: its decimal digits, after a `-` when it is negative. -/
def decimalText : Int → String
  | Int.ofNat n => String.mk (Nat.toDigits 10 n)
  | Int.negSucc n => String.mk ('-' :: Nat.toDigits 10 (n + 1))

/-! ## Notions used to state the properties -/

/-- The ten decimal digit characters. -/
def decimalDigits : List Char := ['0', '1', '2', '3', '4', '5', '6', '7', '8', '9']

/-- The number a run of decimal digit characters writes. -/
def decimalValue (L : List Char) : Nat :=
  (takeDigits 10 L).foldl (fun acc d => acc * 10 + d) 0

/-- The ids of the array, in array order, are 1, 2, ..., length. -/
def IdsSequential (db : List Product) : Prop :=
  db.map Product.id = (List.range db.length).map (fun (i : Nat) => (i : Int) + 1)

/-- The record most recently inserted with a given id: the last one, in array order,
that carries it. -/
def lastInsertedWith (db : List Product) (id : Int) : Option Product :=
  (db.filter (fun p => p.id == id)).getLast?

/-! ## Decimal text and `parseInt` -/

theorem digitChar_mem (k : Nat) (h : k < 10) : Nat.digitChar k ∈ decimalDigits := by
  interval_cases k <;> decide

theorem digitValue_digitChar (k : Nat) (h : k < 10) :
    digitValue (Nat.digitChar k) = some k := by
  interval_cases k <;> rfl

theorem digitValue_of_mem {c : Char} (h : c ∈ decimalDigits) :
    ∃ k, k < 10 ∧ digitValue c = some k := by
  simp only [decimalDigits, List.mem_cons, List.mem_singleton, List.not_mem_nil, or_false] at h
  rcases h with rfl | rfl | rfl | rfl | rfl | rfl | rfl | rfl | rfl | rfl
  exacts [⟨0, by decide, rfl⟩, ⟨1, by decide, rfl⟩, ⟨2, by decide, rfl⟩, ⟨3, by decide, rfl⟩,
    ⟨4, by decide, rfl⟩, ⟨5, by decide, rfl⟩, ⟨6, by decide, rfl⟩, ⟨7, by decide, rfl⟩,
    ⟨8, by decide, rfl⟩, ⟨9, by decide, rfl⟩]

theorem takeDigits_append_digit (L : List Char) (hL : ∀ c ∈ L, c ∈ decimalDigits)
    (k : Nat) (hk : k < 10) (rest : List Char) (hrest : takeDigits 10 rest = []) :
    takeDigits 10 (L ++ Nat.digitChar k :: rest) = takeDigits 10 L ++ [k] := by
  induction L with
  | nil => simp [takeDigits, digitValue_digitChar k hk, hk, hrest]
  | cons c cs ih =>
    obtain ⟨d, hd, hv⟩ := digitValue_of_mem (hL c (List.mem_cons_self _ _))
    have ih2 := ih (fun x hx => hL x (List.mem_cons_of_mem _ hx))
    simp [takeDigits, hv, hd, ih2]

theorem toDigitsCore_spec (fuel : Nat) : ∀ (n : Nat) (ds : List Char), n < fuel →
    ∃ L, Nat.toDigitsCore 10 fuel n ds = L ++ ds ∧ L ≠ [] ∧ (∀ c ∈ L, c ∈ decimalDigits) ∧
      decimalValue L = n := by
  induction fuel with
  | zero => intro n ds h; omega
  | succ fuel ih =>
    intro n ds h
    by_cases h0 : n / 10 = 0
    · refine ⟨[Nat.digitChar (n % 10)], ?_, by simp, ?_, ?_⟩
      · simp [Nat.toDigitsCore, h0]
      · intro c hc
        rw [List.mem_singleton] at hc
        subst hc
        exact digitChar_mem _ (Nat.mod_lt _ (by decide))
      · have hlt : n % 10 < 10 := Nat.mod_lt _ (by decide)
        simp only [decimalValue, takeDigits, digitValue_digitChar _ hlt, hlt, if_true,
          List.foldl_cons, List.foldl_nil]
        omega
    · have hlt : n / 10 < fuel := by omega
      obtain ⟨L, hL, -, hall, hval⟩ := ih (n / 10) (Nat.digitChar (n % 10) :: ds) hlt
      have hk : n % 10 < 10 := Nat.mod_lt _ (by decide)
      refine ⟨L ++ [Nat.digitChar (n % 10)], ?_, by simp, ?_, ?_⟩
      · simp [Nat.toDigitsCore, h0, hL]
      · intro c hc
        rcases List.mem_append.1 hc with hc | hc
        · exact hall c hc
        · rw [List.mem_singleton] at hc
          subst hc
          exact digitChar_mem _ hk
      · unfold decimalValue at hval ⊢
        rw [takeDigits_append_digit L hall _ hk [] rfl, List.foldl_append, hval]
        simp only [List.foldl_cons, List.foldl_nil]
        omega

theorem toDigits_spec (n : Nat) :
    Nat.toDigits 10 n ≠ [] ∧ (∀ c ∈ Nat.toDigits 10 n, c ∈ decimalDigits) ∧
      decimalValue (Nat.toDigits 10 n) = n := by
  obtain ⟨L, hL, hne, hall, hval⟩ := toDigitsCore_spec (n + 1) n [] (Nat.lt_succ_self n)
  rw [List.append_nil] at hL
  unfold Nat.toDigits
  rw [hL]
  exact ⟨hne, hall, hval⟩

theorem parseInt_digits (L : List Char) (hne : L ≠ []) (hall : ∀ c ∈ L, c ∈ decimalDigits) :
    parseInt (String.mk L) = some (decimalValue L : Int) ∧
      parseInt (String.mk ('-' :: L)) = some (-(decimalValue L : Int)) := by
  obtain ⟨c, cs, rfl⟩ := List.exists_cons_of_ne_nil hne
  have hc := hall c (List.mem_cons_self _ _)
  obtain ⟨k, hk, hv⟩ := digitValue_of_mem hc
  have hZ : takeDigits 10 (c :: cs) ≠ [] := by simp [takeDigits, hv, hk]
  simp only [decimalDigits, List.mem_cons, List.mem_singleton, List.not_mem_nil, or_false] at hc
  rcases hc with rfl | rfl | rfl | rfl | rfl | rfl | rfl | rfl | rfl | rfl
  · match cs, hall, hZ with
    | [], _, _ => exact ⟨rfl, rfl⟩
    | x :: cs, hall, hZ =>
      have hx := hall x (List.mem_cons_of_mem _ (List.mem_cons_self _ _))
      simp only [decimalDigits, List.mem_cons, List.mem_singleton, List.not_mem_nil,
        or_false] at hx
      rcases hx with rfl | rfl | rfl | rfl | rfl | rfl | rfl | rfl | rfl | rfl
      all_goals
        constructor
        · simp only [parseInt, decimalValue, String.toList, List.dropWhile,
            isStrWhiteSpaceChar]
          simp
          exact hZ
        · simp only [parseInt, decimalValue, String.toList, List.dropWhile,
            isStrWhiteSpaceChar]
          simp
          exact hZ
  all_goals
    constructor
    · simp only [parseInt, decimalValue, String.toList, List.dropWhile, isStrWhiteSpaceChar]
      simp
      exact hZ
    · simp only [parseInt, decimalValue, String.toList, List.dropWhile, isStrWhiteSpaceChar]
      simp
      exact hZ

/-- Reading back the decimal text of an integer gives the integer. -/
theorem parseInt_decimalText (n : Int) : parseInt (decimalText n) = some n := by
  cases n with
  | ofNat m =>
    obtain ⟨hne, hall, hval⟩ := toDigits_spec m
    have h := (parseInt_digits _ hne hall).1
    rw [hval] at h
    exact h
  | negSucc m =>
    obtain ⟨hne, hall, hval⟩ := toDigits_spec (m + 1)
    have h := (parseInt_digits _ hne hall).2
    rw [hval] at h
    simpa [decimalText, Int.negSucc_eq] using h

/-! ## The array under requests -/

theorem restPostProducts_eq_createProduct (db : List Product) (body : Body) :
    restPostProducts db body =
      ((createProduct db (body.get "name") (body.get "description") (body.get "price")
          (body.get "tax")).1,
        Response.json 201 (Payload.product
          (createProduct db (body.get "name") (body.get "description") (body.get "price")
            (body.get "tax")).2)) := rfl

theorem step_of_isCreate (db : List Product) (r : Request) (h : r.isCreate = true) :
    ∃ name description price tax,
      (step db r).1 = (createProduct db name description price tax).1 := by
  cases r with
  | getProducts => simp [Request.isCreate] at h
  | getProductById id => simp [Request.isCreate] at h
  | createProduct name description price tax => exact ⟨name, description, price, tax, rfl⟩
  | rest method path body =>
    simp only [Request.isCreate, Bool.and_eq_true, decide_eq_true_eq] at h
    obtain ⟨hm, hp⟩ := h
    subst hm
    exact ⟨body.get "name", body.get "description", body.get "price", body.get "tax", by
      simp [step, app, hp, restPostProducts_eq_createProduct]⟩

theorem step_of_not_isCreate (db : List Product) (r : Request) (h : r.isCreate = false) :
    (step db r).1 = db := by
  cases r with
  | getProducts => rfl
  | getProductById id => rfl
  | createProduct name description price tax => simp [Request.isCreate] at h
  | rest method path body =>
    simp only [Request.isCreate, Bool.and_eq_false_iff, decide_eq_false_iff_not] at h
    have hpost : ¬ (method = Method.POST ∧ matchProducts path = true) := by
      rintro ⟨hm, hp⟩
      rcases h with h | h
      · exact h hm
      · rw [hp] at h; exact Bool.noConfusion h
    simp only [step, app, hpost, if_false]
    split_ifs <;> first | rfl | (split <;> rfl)

theorem run_nil (db : List Product) : run db [] = db := rfl

theorem run_cons (db : List Product) (r : Request) (rs : List Request) :
    run db (r :: rs) = run (step db r).1 rs := rfl

theorem run_append (db : List Product) (rs qs : List Request) :
    run db (rs ++ qs) = run (run db rs) qs := by
  simp [run, List.foldl_append]

theorem createProduct_length (db : List Product) (name description price tax : JSValue) :
    (createProduct db name description price tax).1.length = db.length + 1 := by
  simp [createProduct]

theorem step_length (db : List Product) (r : Request) :
    (step db r).1.length = db.length + (if r.isCreate = true then 1 else 0) := by
  by_cases h : r.isCreate = true
  · obtain ⟨name, description, price, tax, hs⟩ := step_of_isCreate db r h
    rw [hs, createProduct_length, if_pos h]
  · rw [step_of_not_isCreate db r (by simpa using h), if_neg h, Nat.add_zero]

theorem run_length (requests : List Request) : ∀ db : List Product,
    (run db requests).length = db.length + requests.countP Request.isCreate := by
  induction requests with
  | nil => intro db; simp [run]
  | cons r rs ih =>
    intro db
    rw [run_cons, ih, step_length, List.countP_cons]
    omega

theorem idsSequential_productsDb : IdsSequential productsDb := by
  simp [IdsSequential, productsDb, List.range_succ]

theorem idsSequential_createProduct (db : List Product) (name description price tax : JSValue)
    (h : IdsSequential db) : IdsSequential (createProduct db name description price tax).1 := by
  unfold IdsSequential at h ⊢
  simp [createProduct, List.range_succ, h]

theorem idsSequential_step (db : List Product) (r : Request) (h : IdsSequential db) :
    IdsSequential (step db r).1 := by
  by_cases hc : r.isCreate = true
  · obtain ⟨name, description, price, tax, hs⟩ := step_of_isCreate db r hc
    rw [hs]
    exact idsSequential_createProduct db name description price tax h
  · rw [step_of_not_isCreate db r (by simpa using hc)]
    exact h

theorem idsSequential_run (requests : List Request) : ∀ db : List Product,
    IdsSequential db → IdsSequential (run db requests) := by
  induction requests with
  | nil => intro db h; exact h
  | cons r rs ih =>
    intro db h
    rw [run_cons]
    exact ih _ (idsSequential_step db r h)

theorem ids_nodup_of_idsSequential (db : List Product) (h : IdsSequential db) :
    (db.map Product.id).Nodup := by
  rw [h]
  exact (List.nodup_range _).map (fun a b hab => by simpa using hab)

theorem mem_ids_iff_of_idsSequential (db : List Product) (h : IdsSequential db) (k : Int) :
    (∃ p ∈ db, p.id = k) ↔ (1 ≤ k ∧ k ≤ (db.length : Int)) := by
  have h1 : (∃ p ∈ db, p.id = k) ↔ k ∈ db.map Product.id := by
    simp [List.mem_map]
  rw [h1, h]
  simp only [List.mem_map, List.mem_range]
  constructor
  · rintro ⟨i, hi, hk⟩
    omega
  · rintro ⟨h1, h2⟩
    exact ⟨(k - 1).toNat, by omega, by omega⟩

theorem find_eq_lastInsertedWith (db : List Product) (k : Int)
    (h : (db.map Product.id).Nodup) :
    db.find? (fun p => p.id == k) = lastInsertedWith db k := by
  unfold lastInsertedWith
  induction db with
  | nil => rfl
  | cons a l ih =>
    rw [List.map_cons, List.nodup_cons] at h
    by_cases ha : a.id = k
    · have hnone : l.filter (fun p => p.id == k) = [] := by
        rw [List.filter_eq_nil_iff]
        intro p hp hpk
        have hpk2 : p.id = k := by simpa using hpk
        exact h.1 (List.mem_map.2 ⟨p, hp, by rw [hpk2, ha]⟩)
      have hpa : (a.id == k) = true := by simpa using ha
      rw [List.find?_cons_of_pos _ (by simpa using ha), List.filter_cons_of_pos (by simpa using ha),
        hnone]
      rfl
    · rw [List.find?_cons_of_neg _ (by simpa using ha),
        List.filter_cons_of_neg (by simpa using ha)]
      exact ih h.2

theorem restGetProductById_of_parseInt (db : List Product) (id : String) (k : Int)
    (h : parseInt id = some k) :
    restGetProductById db id =
      (match getProductById db k with
        | none => Response.json 404 (Payload.message "Product not found")
        | some product => Response.json 200 (Payload.product product)) := by
  simp only [restGetProductById, getProductById, h, strictEquals]

theorem getProductById_created (db : List Product) (name description price tax : JSValue)
    (h : IdsSequential db) :
    getProductById (createProduct db name description price tax).1
        (createProduct db name description price tax).2.id =
      some (createProduct db name description price tax).2 := by
  have hnone : db.find? (fun product => product.id == (db.length : Int) + 1) = none := by
    rw [List.find?_eq_none]
    intro p hp hpk
    have hpk2 : p.id = (db.length : Int) + 1 := by simpa using hpk
    have := (mem_ids_iff_of_idsSequential db h ((db.length : Int) + 1)).1 ⟨p, hp, hpk2⟩
    omega
  simp [getProductById, createProduct, hnone]

theorem run_replicate_length (n : Nat) (r : Request) (hr : r.isCreate = true) :
    ∀ db : List Product, (run db (List.replicate n r)).length = db.length + n := by
  induction n with
  | zero => intro db; rfl
  | succ n ih =>
    intro db
    rw [List.replicate_succ, run_cons, ih, step_length, if_pos hr]
    omega

theorem splitPath_segment (seg rest : List Char) (h : '/' ∉ seg) :
    splitPath (seg ++ '/' :: rest) = seg :: splitPath rest := by
  induction seg with
  | nil => simp [splitPath]
  | cons c cs ih =>
    have hc : c ≠ '/' := fun e => h (e ▸ List.mem_cons_self _ _)
    have hcs : '/' ∉ cs := fun e => h (List.mem_cons_of_mem _ e)
    simp [splitPath, hc, ih hcs]

theorem splitPath_last (seg : List Char) (h : '/' ∉ seg) : splitPath seg = [seg] := by
  induction seg with
  | nil => rfl
  | cons c cs ih =>
    have hc : c ≠ '/' := fun e => h (e ▸ List.mem_cons_self _ _)
    have hcs : '/' ∉ cs := fun e => h (List.mem_cons_of_mem _ e)
    simp [splitPath, hc, ih hcs]

theorem splitPath_products_id (id : String) (h : '/' ∉ id.toList) :
    splitPath ("/rest/products/" ++ id).toList =
      [[], "rest".toList, "products".toList, id.toList] := by
  have e : ("/rest/products/" ++ id).toList =
      [] ++ '/' :: ("rest".toList ++ '/' :: ("products".toList ++ '/' :: id.toList)) := rfl
  rw [e, splitPath_segment _ _ (by decide), splitPath_segment _ _ (by decide),
    splitPath_segment _ _ (by decide), splitPath_last _ h]

theorem matchProductById_products_id (id : String) (hne : id ≠ "") (h : '/' ∉ id.toList) :
    matchProductById ("/rest/products/" ++ id) = some id ∧
      matchProducts ("/rest/products/" ++ id) = false := by
  have hnil : id.toList ≠ [] := by
    intro e
    apply hne
    cases id
    simp only [String.toList] at e
    subst e
    rfl
  obtain ⟨c, cs, hcs⟩ := List.exists_cons_of_ne_nil hnil
  have hmk : String.mk (c :: cs) = id := by
    cases id
    simp only [String.toList] at hcs
    rw [hcs]
  constructor
  · simp only [matchProductById, splitPath_products_id id h, hcs]
    simp [segmentIs, hmk]
  · simp only [matchProducts, splitPath_products_id id h, hcs]

theorem decimalText_segment (k : Int) :
    decimalText k ≠ "" ∧ '/' ∉ (decimalText k).toList := by
  cases k with
  | ofNat m =>
    obtain ⟨hne, hall, -⟩ := toDigits_spec m
    constructor
    · intro e
      apply hne
      simpa [decimalText] using congrArg String.toList e
    · intro hmem
      have := hall _ hmem
      revert this
      decide
  | negSucc m =>
    obtain ⟨-, hall, -⟩ := toDigits_spec (m + 1)
    constructor
    · intro e
      simpa [decimalText] using congrArg String.toList e
    · intro hmem
      simp only [decimalText, String.toList, List.mem_cons] at hmem
      rcases hmem with hmem | hmem
      · exact absurd hmem (by decide)
      · have := hall _ hmem
        revert this
        decide

theorem restGetProductById_notFound_iff (db : List Product) (k : Int) :
    restGetProductById db (decimalText k) =
        Response.json 404 (Payload.message "Product not found") ↔
      ∀ p ∈ db, p.id ≠ k := by
  rw [restGetProductById_of_parseInt db _ k (parseInt_decimalText k)]
  cases hfind : getProductById db k with
  | none =>
    simp only [true_iff]
    intro p hp hpk
    have := List.find?_eq_none.1 hfind p hp
    exact this (by simpa using hpk)
  | some q =>
    unfold getProductById at hfind
    have hq : q ∈ db := List.mem_of_find?_eq_some hfind
    have hqk := List.find?_some hfind
    constructor
    · intro hresp
      simp at hresp
    · intro hall
      exact absurd (by simpa using hqk) (hall q hq)

theorem restGetProductById_found_iff (db : List Product) (k : Int) :
    (∃ p, p ∈ db ∧ p.id = k ∧
        restGetProductById db (decimalText k) = Response.json 200 (Payload.product p)) ↔
      ∃ p ∈ db, p.id = k := by
  constructor
  · rintro ⟨p, hp, hk, -⟩
    exact ⟨p, hp, hk⟩
  · rintro ⟨p, hp, hk⟩
    rw [restGetProductById_of_parseInt db _ k (parseInt_decimalText k)]
    cases hfind : getProductById db k with
    | none =>
      have := List.find?_eq_none.1 hfind p hp
      exact absurd (by simpa using hk) this
    | some q =>
      unfold getProductById at hfind
      have hq : q ∈ db := List.mem_of_find?_eq_some hfind
      have hqk := List.find?_some hfind
      exact ⟨q, hq, by simpa using hqk, rfl⟩

theorem step_extends (db : List Product) (r : Request) : db <+: (step db r).1 := by
  by_cases h : r.isCreate = true
  · obtain ⟨name, description, price, tax, hs⟩ := step_of_isCreate db r h
    rw [hs]
    exact List.prefix_append _ _
  · rw [step_of_not_isCreate db r (by simpa using h)]

theorem run_extends (requests : List Request) : ∀ db : List Product, db <+: run db requests := by
  induction requests with
  | nil => intro db; exact List.prefix_refl db
  | cons r rs ih =>
    intro db
    rw [run_cons]
    exact (step_extends db r).trans (ih _)

/-! ## The claims -/

/-- Claim C1: after any sequence of requests from the array at process start (every
sequence of creates is one), and for every request body, the REST POST answers 201 with
the record it appended, and the REST GET-by-id that follows, with the decimal text of the
id the POST returned, answers 200 with that same record, all five fields alike.  Stated
for the two handlers and again through the route table at the registered paths. -/
theorem C1_post_then_get_by_id (requests : List Request) (body getBody : Body) :
    ∃ p : Product,
      restPostProducts (run productsDb requests) body =
        (run productsDb requests ++ [p], Response.json 201 (Payload.product p)) ∧
      restGetProductById (restPostProducts (run productsDb requests) body).1
        (decimalText p.id) = Response.json 200 (Payload.product p) ∧
      app (run productsDb requests) Method.POST "/rest/products" body =
        (run productsDb requests ++ [p], Response.json 201 (Payload.product p)) ∧
      app (run productsDb requests ++ [p]) Method.GET
        ("/rest/products/" ++ decimalText p.id) getBody =
        (run productsDb requests ++ [p], Response.json 200 (Payload.product p)) := by
  have hseq : IdsSequential (run productsDb requests) :=
    idsSequential_run requests productsDb idsSequential_productsDb
  generalize run productsDb requests = db at hseq
  have hget := getProductById_created db (body.get "name") (body.get "description")
    (body.get "price") (body.get "tax") hseq
  have hrest := restGetProductById_of_parseInt
    (createProduct db (body.get "name") (body.get "description") (body.get "price")
      (body.get "tax")).1
    (decimalText (createProduct db (body.get "name") (body.get "description")
      (body.get "price") (body.get "tax")).2.id) _ (parseInt_decimalText _)
  rw [hget] at hrest
  obtain ⟨hne, hslash⟩ := decimalText_segment
    (createProduct db (body.get "name") (body.get "description") (body.get "price")
      (body.get "tax")).2.id
  obtain ⟨hby, hnot⟩ := matchProductById_products_id _ hne hslash
  refine ⟨(createProduct db (body.get "name") (body.get "description") (body.get "price")
      (body.get "tax")).2, rfl, hrest, rfl, ?_⟩
  simp only [app, hnot, hby, if_true, and_false, if_false]
  exact congrArg (Prod.mk _) hrest

/-- Claim C2: after every sequence of requests since process start the list operation
of either API (`getProducts`, REST GET of all products) returns the whole array, whose
length is 2 plus the number of create requests in the sequence; a single request changes
the length by one when it is a create and not at all otherwise, so list and get-by-id
requests leave it as it is. -/
theorem C2_list_length (requests : List Request) (db : List Product) (r : Request)
    (id : Int) (path : String) (body : Body) :
    (getProducts (run productsDb requests)).length =
        2 + requests.countP Request.isCreate ∧
      step (run productsDb requests) Request.getProducts =
        (run productsDb requests, Reply.products (run productsDb requests)) ∧
      step (run productsDb requests) (Request.rest Method.GET "/rest/products" body) =
        (run productsDb requests,
          Reply.rest (Response.json 200 (Payload.products (run productsDb requests)))) ∧
      (step db r).1.length = db.length + (if r.isCreate = true then 1 else 0) ∧
      (step db Request.getProducts).1.length = db.length ∧
      (step db (Request.getProductById id)).1.length = db.length ∧
      (step db (Request.rest Method.GET path body)).1.length = db.length := by
  refine ⟨?_, rfl, rfl, step_length db r, rfl, rfl, ?_⟩
  · rw [getProducts, run_length]
    rfl
  · rw [step_of_not_isCreate]
    simp [Request.isCreate]

/-- Claim C4, as the code has it: in every array reached from the array at process start
that holds fewer than 999999 records, the REST GET-by-id of 999999 answers 404 with
`{ message: "Product not found" }`; and for every array and every integer id, the REST
GET-by-id answers 404 with that body exactly when no record carries the id, and answers
200 with a record carrying the id (the first such) exactly when some record does. -/
theorem C4_not_found_when_absent (requests : List Request)
    (h : (run productsDb requests).length < 999999) (db : List Product) (k : Int) :
    restGetProductById (run productsDb requests) "999999" =
        Response.json 404 (Payload.message "Product not found") ∧
      (restGetProductById db (decimalText k) =
          Response.json 404 (Payload.message "Product not found") ↔
        ∀ p ∈ db, p.id ≠ k) ∧
      ((∃ p, p ∈ db ∧ p.id = k ∧
          restGetProductById db (decimalText k) = Response.json 200 (Payload.product p)) ↔
        ∃ p ∈ db, p.id = k) ∧
      restGetProductById db (decimalText k) =
        (match db.find? (fun p => p.id == k) with
          | none => Response.json 404 (Payload.message "Product not found")
          | some product => Response.json 200 (Payload.product product)) := by
  refine ⟨?_, restGetProductById_notFound_iff db k, restGetProductById_found_iff db k,
    restGetProductById_of_parseInt db _ k (parseInt_decimalText k)⟩
  have hseq : IdsSequential (run productsDb requests) :=
    idsSequential_run requests productsDb idsSequential_productsDb
  generalize run productsDb requests = d at hseq h
  have hp : parseInt "999999" = some 999999 := by rfl
  rw [restGetProductById_of_parseInt d _ _ hp]
  have hnone : getProductById d 999999 = none := by
    unfold getProductById
    rw [List.find?_eq_none]
    intro p hp hpk
    have hpk2 : p.id = 999999 := by simpa using hpk
    have := (mem_ids_iff_of_idsSequential d hseq 999999).1 ⟨p, hp, hpk2⟩
    omega
  rw [hnone]

/-- Claim C4 at the array at process start: the GET-by-id of 999999 answers 404. -/
theorem C4_not_found_when_absent_witness :
    (run productsDb []).length < 999999 ∧
      restGetProductById (run productsDb []) "999999" =
        Response.json 404 (Payload.message "Product not found") :=
  ⟨by decide, (C4_not_found_when_absent [] (by decide) productsDb 1).1⟩

/-- Claim C4 as stated fails: after 999997 creates from the array at process start the
array holds a record with id 999999, and the REST GET-by-id of 999999 answers 200 with
it, not 404. -/
theorem C4_reachable_array_holds_999999 :
    (∃ p : Product, p.id = 999999 ∧
        restGetProductById
          (run productsDb (List.replicate 999997
            (Request.createProduct (JSValue.str "Hat") JSValue.undefined (JSValue.num 10.0)
              JSValue.undefined))) "999999" =
          Response.json 200 (Payload.product p)) ∧
      restGetProductById
          (run productsDb (List.replicate 999997
            (Request.createProduct (JSValue.str "Hat") JSValue.undefined (JSValue.num 10.0)
              JSValue.undefined))) "999999" ≠
        Response.json 404 (Payload.message "Product not found") ∧
      (restGetProductById
          (run productsDb (List.replicate 999997
            (Request.createProduct (JSValue.str "Hat") JSValue.undefined (JSValue.num 10.0)
              JSValue.undefined))) "999999").status = some 200 := by
  have hseq := idsSequential_run (List.replicate 999997
      (Request.createProduct (JSValue.str "Hat") JSValue.undefined (JSValue.num 10.0)
        JSValue.undefined)) productsDb idsSequential_productsDb
  have hlen := run_replicate_length 999997
      (Request.createProduct (JSValue.str "Hat") JSValue.undefined (JSValue.num 10.0)
        JSValue.undefined) rfl productsDb
  generalize run productsDb (List.replicate 999997
      (Request.createProduct (JSValue.str "Hat") JSValue.undefined (JSValue.num 10.0)
        JSValue.undefined)) = d at hseq hlen
  have hlen2 : d.length = 999999 := by
    rw [hlen]
    rfl
  have hp : decimalText 999999 = "999999" := by rfl
  have hex : ∃ p ∈ d, p.id = 999999 :=
    (mem_ids_iff_of_idsSequential d hseq 999999).2 (by omega)
  obtain ⟨p, -, hpk, hresp⟩ := (restGetProductById_found_iff d 999999).2 hex
  rw [hp] at hresp
  refine ⟨⟨p, hpk, hresp⟩, ?_, ?_⟩
  · rw [hresp]
    simp
  · rw [hresp]
    rfl

/-- Claim C5: after every sequence of requests from the array at process start (every
sequence of n creates is one), and for every id, the first-match scan of `getProductById`
and of the REST GET-by-id returns the record most recently inserted with that id when
some record carries the id, and nothing (`undefined`, a 404 over REST) when none does. -/
theorem C5_get_returns_last_inserted (requests : List Request) (k : Int) :
    getProductById (run productsDb requests) k =
        lastInsertedWith (run productsDb requests) k ∧
      restGetProductById (run productsDb requests) (decimalText k) =
        (match lastInsertedWith (run productsDb requests) k with
          | none => Response.json 404 (Payload.message "Product not found")
          | some product => Response.json 200 (Payload.product product)) ∧
      ((∃ p, p ∈ run productsDb requests ∧ p.id = k ∧
          getProductById (run productsDb requests) k = some p) ↔
        ∃ p ∈ run productsDb requests, p.id = k) ∧
      (getProductById (run productsDb requests) k = none ↔
        ∀ p ∈ run productsDb requests, p.id ≠ k) := by
  have hseq : IdsSequential (run productsDb requests) :=
    idsSequential_run requests productsDb idsSequential_productsDb
  generalize run productsDb requests = db at hseq
  have hlast : getProductById db k = lastInsertedWith db k :=
    find_eq_lastInsertedWith db k (ids_nodup_of_idsSequential db hseq)
  refine ⟨hlast, ?_, ?_, ?_⟩
  · rw [← hlast]
    exact restGetProductById_of_parseInt db _ k (parseInt_decimalText k)
  · constructor
    · rintro ⟨p, hp, hk, -⟩
      exact ⟨p, hp, hk⟩
    · rintro ⟨p, hp, hk⟩
      cases hfind : getProductById db k with
      | none =>
        unfold getProductById at hfind
        have := List.find?_eq_none.1 hfind p hp
        exact absurd (by simpa using hk) this
      | some q =>
        unfold getProductById at hfind
        have hq : q ∈ db := List.mem_of_find?_eq_some hfind
        have hqk := List.find?_some hfind
        exact ⟨q, hq, by simpa using hqk, rfl⟩
  · unfold getProductById
    rw [List.find?_eq_none]
    constructor
    · intro h p hp hpk
      exact h p hp (by simpa using hpk)
    · intro h p hp hpk
      exact h p hp (by simpa using hpk)

/-- Claim C6: from the array at process start, `getProducts` returns the two seed
records, T-shirt with id 1 then Shoes with id 2; `createProduct(name: "Cap", price: 9.99)`
then returns the record with id 3, name Cap, price 9.99 and no description and tax (null
for the client); `getProducts` then returns three records, the seeds and that record. -/
theorem C6_fresh_scenario :
    step productsDb Request.getProducts =
        (productsDb,
          Reply.products
            [ { id := 1, name := JSValue.str "T-shirt",
                description := JSValue.str "Cotton T-shirt", price := JSValue.num 20.5,
                tax := JSValue.num 2.0 },
              { id := 2, name := JSValue.str "Shoes",
                description := JSValue.str "Sport shoes", price := JSValue.num 50.0,
                tax := JSValue.num 5.0 } ]) ∧
      (step productsDb (Request.createProduct (JSValue.str "Cap") JSValue.undefined
          (JSValue.num 9.99) JSValue.undefined)).2 =
        Reply.created { id := 3, name := JSValue.str "Cap", description := JSValue.undefined,
                        price := JSValue.num 9.99, tax := JSValue.undefined } ∧
      completeNullable (createProduct productsDb (JSValue.str "Cap") JSValue.undefined
          (JSValue.num 9.99) JSValue.undefined).2.description = JSValue.null ∧
      completeNullable (createProduct productsDb (JSValue.str "Cap") JSValue.undefined
          (JSValue.num 9.99) JSValue.undefined).2.tax = JSValue.null ∧
      step (step productsDb (Request.createProduct (JSValue.str "Cap") JSValue.undefined
          (JSValue.num 9.99) JSValue.undefined)).1 Request.getProducts =
        ([ { id := 1, name := JSValue.str "T-shirt",
             description := JSValue.str "Cotton T-shirt", price := JSValue.num 20.5,
             tax := JSValue.num 2.0 },
           { id := 2, name := JSValue.str "Shoes",
             description := JSValue.str "Sport shoes", price := JSValue.num 50.0,
             tax := JSValue.num 5.0 },
           { id := 3, name := JSValue.str "Cap", description := JSValue.undefined,
             price := JSValue.num 9.99, tax := JSValue.undefined } ],
         Reply.products
          [ { id := 1, name := JSValue.str "T-shirt",
              description := JSValue.str "Cotton T-shirt", price := JSValue.num 20.5,
              tax := JSValue.num 2.0 },
            { id := 2, name := JSValue.str "Shoes",
              description := JSValue.str "Sport shoes", price := JSValue.num 50.0,
              tax := JSValue.num 5.0 },
            { id := 3, name := JSValue.str "Cap", description := JSValue.undefined,
              price := JSValue.num 9.99, tax := JSValue.undefined } ]) := by
  refine ⟨rfl, ?_, rfl, rfl, ?_⟩
  · simp [step, createProduct, productsDb]
  · simp [step, createProduct, productsDb, getProducts]

/-- Claim C7 as stated fails: the paths `/products` and `/products/1` are not in the
route table; a GET or a POST there is answered by Express's own 404 and a POST creates
nothing. -/
theorem C7_products_path_not_routed :
    app productsDb Method.GET "/products" (Body.object []) =
        (productsDb, Response.notRouted) ∧
      app productsDb Method.GET "/products/1" (Body.object []) =
        (productsDb, Response.notRouted) ∧
      app productsDb Method.POST "/products"
          (Body.object [("name", JSValue.str "Hat"), ("price", JSValue.num 10.0)]) =
        (productsDb, Response.notRouted) ∧
      (app productsDb Method.GET "/products" (Body.object [])).2.status = some 404 ∧
      (app productsDb Method.GET "/products" (Body.object [])).2 ≠
        Response.json 200 (Payload.products productsDb) := by
  refine ⟨rfl, rfl, rfl, rfl, ?_⟩
  have h : app productsDb Method.GET "/products" (Body.object []) =
      (productsDb, Response.notRouted) := rfl
  rw [h]
  simp

/-- Claim C7, as the code has it: the route table dispatches the three paths under the
prefix `/rest`: a GET of `/rest/products` answers 200 with the full product list, a GET of
`/rest/products/{id}` reaches the get-by-id handler with the segment as id, and a POST of
`/rest/products` answers 201 with the created product. -/
theorem C7_route_table (db : List Product) (body : Body) (id : String) (hne : id ≠ "")
    (hslash : '/' ∉ id.toList) :
    app db Method.GET "/rest/products" body =
        (db, Response.json 200 (Payload.products db)) ∧
      app db Method.GET ("/rest/products/" ++ id) body = (db, restGetProductById db id) ∧
      app db Method.POST "/rest/products" body =
        (db ++ [(createProduct db (body.get "name") (body.get "description")
            (body.get "price") (body.get "tax")).2],
          Response.json 201 (Payload.product
            (createProduct db (body.get "name") (body.get "description")
              (body.get "price") (body.get "tax")).2)) := by
  obtain ⟨hby, hnot⟩ := matchProductById_products_id id hne hslash
  refine ⟨rfl, ?_, rfl⟩
  simp [app, hnot, hby]

/-- Claim C7 at the id segment `2` of the array at process start: the GET of
`/rest/products/2` reaches the get-by-id handler and answers 200 with the Shoes record. -/
theorem C7_route_table_witness :
    "2" ≠ "" ∧ '/' ∉ "2".toList ∧
      app productsDb Method.GET ("/rest/products/" ++ "2") (Body.object []) =
        (productsDb, restGetProductById productsDb "2") :=
  ⟨by decide, by decide,
    (C7_route_table productsDb (Body.object []) "2" (by decide) (by decide)).2.1⟩

/-- Claim C8: the array only grows at its end.  For every array and every request of
either API the array before is a prefix of the array after (its first `length` records
are the old records, unchanged); a create leaves the old array with exactly one record
appended, every other request, the list and get-by-id requests among them, leaves the
array as it was; and so over any sequence of requests. -/
theorem C8_append_only (db : List Product) (r : Request) (requests : List Request)
    (id : Int) (path : String) (body : Body) (name description price tax : JSValue) :
    db <+: (step db r).1 ∧
      (step db r).1.take db.length = db ∧
      ((r.isCreate = true ∧ ∃ p : Product, (step db r).1 = db ++ [p]) ∨
        (r.isCreate = false ∧ (step db r).1 = db)) ∧
      (step db Request.getProducts).1 = db ∧
      (step db (Request.getProductById id)).1 = db ∧
      (step db (Request.rest Method.GET path body)).1 = db ∧
      (step db (Request.createProduct name description price tax)).1 =
        db ++ [(createProduct db name description price tax).2] ∧
      (step db (Request.rest Method.POST "/rest/products" body)).1 =
        db ++ [(createProduct db (body.get "name") (body.get "description")
          (body.get "price") (body.get "tax")).2] ∧
      db <+: run db requests ∧
      (run db requests).take db.length = db := by
  have hget : (step db (Request.rest Method.GET path body)).1 = db :=
    step_of_not_isCreate db _ (by simp [Request.isCreate])
  have hcases : (r.isCreate = true ∧ ∃ p : Product, (step db r).1 = db ++ [p]) ∨
      (r.isCreate = false ∧ (step db r).1 = db) := by
    by_cases h : r.isCreate = true
    · obtain ⟨name, description, price, tax, hs⟩ := step_of_isCreate db r h
      exact Or.inl ⟨h, _, hs⟩
    · have h2 : r.isCreate = false := by simpa using h
      exact Or.inr ⟨h2, step_of_not_isCreate db r h2⟩
  exact ⟨step_extends db r, List.prefix_iff_eq_take.1 (step_extends db r) |>.symm, hcases, rfl,
    rfl, hget, rfl, rfl, run_extends requests db,
    (List.prefix_iff_eq_take.1 (run_extends requests db)).symm⟩

/-- Claim C10: after every sequence of REST and GraphQL requests from the array at
process start, the ids in array order are 1, 2, ..., length: the record at position i
(counting from 1) has id i; hence no two records share an id, and an integer is the id of
a record exactly when it lies between 1 and the length. -/
theorem C10_ids_are_positions (requests : List Request) (i : Nat) (k : Int) :
    (run productsDb requests).map Product.id =
        (List.range (run productsDb requests).length).map (fun (j : Nat) => (j : Int) + 1) ∧
      ((run productsDb requests)[i]?).map Product.id =
        (if i < (run productsDb requests).length then some ((i : Int) + 1) else none) ∧
      ((run productsDb requests).map Product.id).Nodup ∧
      ((∃ p ∈ run productsDb requests, p.id = k) ↔
        (1 ≤ k ∧ k ≤ ((run productsDb requests).length : Int))) := by
  have hseq : IdsSequential (run productsDb requests) :=
    idsSequential_run requests productsDb idsSequential_productsDb
  generalize run productsDb requests = db at hseq
  refine ⟨hseq, ?_, ids_nodup_of_idsSequential db hseq,
    mem_ids_iff_of_idsSequential db hseq k⟩
  rw [← List.getElem?_map, hseq, List.getElem?_map]
  by_cases hi : i < db.length
  · simp [hi, List.getElem?_range]
  · have hle : db.length ≤ i := by omega
    simp [hi, hle]

end ProductService
